import Mathlib

/-!
Verification model of the inbox-parsing program (`src/main.rs`).

The program streams entries of an mbox archive and, for each entry at
zero-based position `i`, attempts to build an `EmailEntry` record by
(1) converting `i` to `i32`, (2) extracting a sender address,
(3) extracting a domain with the regex `[^<>@\s]+@(?P<domain>[^<>@\s]+)`,
(4) parsing the envelope date with chrono format `%a %b %d %T %z %Y`,
then inserts the record into a postgres table; one success or one failure
is tallied per entry, and the run ends with `Ok` exactly when no entry
failed.

External collaborators (mbox reader, mailparse, postgres) are modelled
abstractly: an archive entry carries its envelope address, envelope date
string and, when a full message is attached, the outcome of parsing that
message (either a failure or a list of headers); the database is a state
holding the optional `emails` table; per-record insert success is an
oracle parameter.  The regex engine and the chrono format parser are
modelled concretely, character by character, following their documented
leftmost-match / fixed-format semantics.
-/

/-- Unicode white space, as matched by the regex class `\s` and by
Rust's `char::is_whitespace` (used by chrono's format parser to skip
spaces). -/
def isWhiteSpaceChar (c : Char) : Bool :=
  let n := c.toNat
  (decide (9 ≤ n) && decide (n ≤ 13)) || decide (n = 32) || decide (n = 133) ||
  decide (n = 160) || decide (n = 5760) ||
  (decide (8192 ≤ n) && decide (n ≤ 8202)) || decide (n = 8232) ||
  decide (n = 8233) || decide (n = 8239) || decide (n = 8287) ||
  decide (n = 12288)

/-- A character matched by the regex character class `[^<>@\s]`. -/
def reClassChar (c : Char) : Bool :=
  !(c == '<' || c == '>' || c == '@' || isWhiteSpaceChar c)

/-- Whether the regex `[^<>@\s]+@(?P<domain>[^<>@\s]+)` matches at
position `p` of `s`.  The first `+` is greedy and its class excludes
`@`, so a match starting at `p` exists exactly when the maximal run of
class characters from `p` is non-empty, is followed by `@`, and at
least one class character follows the `@`. -/
def matchAtB (s : List Char) (p : Nat) : Bool :=
  match (s.drop p).dropWhile reClassChar with
  | c :: b => c == '@' && !((s.drop p).takeWhile reClassChar).isEmpty &&
      !(b.takeWhile reClassChar).isEmpty
  | [] => false

/-- The text captured by the `domain` group for the match of the regex
at position `p`: the maximal run of class characters after the `@`. -/
def domainAt (s : List Char) (p : Nat) : List Char :=
  ((s.drop p).dropWhile reClassChar).tail.takeWhile reClassChar

/-- First position at or after `p`, within `fuel` steps, satisfying `f`
(the regex engine's leftmost-match scan). -/
def scanFirst (f : Nat → Bool) : Nat → Nat → Option Nat
  | _, 0 => none
  | p, fuel + 1 => if f p then some p else scanFirst f (p + 1) fuel

/-- Position of the leftmost match of the regex in `s`, if any. -/
def re_first_match (s : List Char) : Option Nat :=
  scanFirst (matchAtB s) 0 (s.length + 1)

/-- Domain extraction as performed in `main`:
`RE.captures(&address).and_then(|cap| cap.name("domain")...).unwrap_or("")`.
Returns the `domain` capture of the leftmost regex match, or `""` when
the regex does not match. -/
def extract_domain (address : String) : String :=
  match re_first_match address.data with
  | some p => ⟨domainAt address.data p⟩
  | none => ""

example : extract_domain "user@example.com" = "example.com" := by decide
example : extract_domain "not-an-address" = "" := by decide
example : extract_domain "Alice <alice@example.com>" = "example.com" := by decide

/-! ## The chrono format parser for `%a %b %d %T %z %Y`

`parse_message_timestamp` calls chrono's
`DateTime::parse_from_str(raw_date, "%a %b %d %T %z %Y")`.  The items of
that format are: short weekday name, space, short month name, space,
numeric day (up to 2 digits), space, numeric hour, literal `:`, numeric
minute, literal `:`, numeric second, space, numeric timezone offset,
space, numeric year (up to 4 digits, or sign followed by digits).
chrono's parser skips any amount of whitespace at a space item and
before every numeric item, requires literals to match exactly, requires
the whole input to be consumed, and finally validates the fields:
the date must exist in the proleptic Gregorian calendar, the parsed
weekday name must agree with the weekday of that date, hour/minute are
bounded (second 60 is accepted as a leap second), and the offset must be
strictly between -24 and +24 hours. -/

/-- Drop leading whitespace (chrono `trim_start` at space/numeric items). -/
def trimLeft (s : List Char) : List Char :=
  s.dropWhile isWhiteSpaceChar

/-- Scan at most `w` further digits onto accumulator `acc`. -/
def scanNumberAux : Nat → Nat → List Char → Nat × List Char
  | acc, 0, s => (acc, s)
  | acc, _ + 1, [] => (acc, [])
  | acc, w + 1, c :: cs =>
    if c.isDigit then scanNumberAux (acc * 10 + (c.toNat - 48)) w cs
    else (acc, c :: cs)

/-- Scan an unsigned number of 1 to `maxW` digits (chrono `scan::number`). -/
def scanNumber (maxW : Nat) : List Char → Option (Nat × List Char)
  | [] => none
  | c :: cs =>
    if c.isDigit then some (scanNumberAux (c.toNat - 48) (maxW - 1) cs)
    else none

/-- Scan exactly two digits (chrono's timezone-offset hour and minute). -/
def scanTwoDigits : List Char → Option (Nat × List Char)
  | a :: b :: rest =>
    if a.isDigit && b.isDigit then
      some ((a.toNat - 48) * 10 + (b.toNat - 48), rest)
    else none
  | _ => none

/-- Scan a short weekday name, case-insensitively (chrono numbers
weekdays from Monday; we use 0 = Mon .. 6 = Sun). -/
def scanShortWeekday : List Char → Option (Nat × List Char)
  | a :: b :: c :: rest =>
    (match a.toNat ||| 32, b.toNat ||| 32, c.toNat ||| 32 with
     | 109, 111, 110 => some 0
     | 116, 117, 101 => some 1
     | 119, 101, 100 => some 2
     | 116, 104, 117 => some 3
     | 102, 114, 105 => some 4
     | 115, 97, 116 => some 5
     | 115, 117, 110 => some 6
     | _, _, _ => none).map (fun w => (w, rest))
  | _ => none

/-- Scan a short month name, case-insensitively (1 = Jan .. 12 = Dec). -/
def scanShortMonth : List Char → Option (Nat × List Char)
  | a :: b :: c :: rest =>
    (match a.toNat ||| 32, b.toNat ||| 32, c.toNat ||| 32 with
     | 106, 97, 110 => some 1
     | 102, 101, 98 => some 2
     | 109, 97, 114 => some 3
     | 97, 112, 114 => some 4
     | 109, 97, 121 => some 5
     | 106, 117, 110 => some 6
     | 106, 117, 108 => some 7
     | 97, 117, 103 => some 8
     | 115, 101, 112 => some 9
     | 111, 99, 116 => some 10
     | 110, 111, 118 => some 11
     | 100, 101, 99 => some 12
     | _, _, _ => none).map (fun m => (m, rest))
  | _ => none

/-- Match one exact literal character (chrono literal items). -/
def expectChar (c : Char) : List Char → Option (List Char)
  | x :: rest => if x = c then some rest else none
  | [] => none

/-- Scan a numeric timezone offset: sign, two hour digits, optional
colons/whitespace, two minute digits; result in seconds east of UTC
(chrono `scan::timezone_offset` with `colon_or_space`). -/
def scanOffset : List Char → Option (Int × List Char)
  | [] => none
  | c :: cs =>
    if c = '+' || c = '-' then do
      let (h, rest) ← scanTwoDigits cs
      let rest := rest.dropWhile (fun x => x == ':' || isWhiteSpaceChar x)
      let (m, rest) ← scanTwoDigits rest
      if 60 ≤ m then none
      else
        let secs : Int := h * 3600 + m * 60
        some (if c = '-' then -secs else secs, rest)
    else none

/-- Scan a `%Y` year: up to four digits, or a sign followed by any
number of digits. -/
def scanYear : List Char → Option (Int × List Char)
  | [] => none
  | c :: cs =>
    if c = '-' then (scanNumber cs.length cs).map (fun p => (-(p.1 : Int), p.2))
    else if c = '+' then (scanNumber cs.length cs).map (fun p => ((p.1 : Int), p.2))
    else (scanNumber 4 (c :: cs)).map (fun p => ((p.1 : Int), p.2))

/-- Gregorian leap year (proleptic). -/
def isLeapYear (y : Int) : Bool :=
  (y.emod 4 == 0 && y.emod 100 != 0) || y.emod 400 == 0

/-- Number of days in month `m` of year `y`. -/
def daysInMonth (y : Int) (m : Nat) : Nat :=
  match m with
  | 1 => 31 | 3 => 31 | 5 => 31 | 7 => 31 | 8 => 31 | 10 => 31 | 12 => 31
  | 4 => 30 | 6 => 30 | 9 => 30 | 11 => 30
  | 2 => if isLeapYear y then 29 else 28
  | _ => 0

/-- Days from 1970-01-01 to year `y`, month `m`, day `d` in the
proleptic Gregorian calendar (Howard Hinnant's civil-days algorithm). -/
def daysFromCivil (y : Int) (m d : Nat) : Int :=
  let y' : Int := if m ≤ 2 then y - 1 else y
  let era : Int := y'.fdiv 400
  let yoe : Nat := (y' - era * 400).toNat
  let mp : Nat := if 2 < m then m - 3 else m + 9
  let doy : Nat := (153 * mp + 2) / 5 + d - 1
  let doe : Nat := yoe * 365 + yoe / 4 - yoe / 100 + doy
  era * 146097 + (doe : Int) - 719468

/-- Weekday of a civil date, 0 = Monday .. 6 = Sunday. -/
def weekdayOf (y : Int) (m d : Nat) : Nat :=
  ((daysFromCivil y m d + 3).emod 7).toNat

/-- A chrono `DateTime<FixedOffset>`: the instant expressed as seconds
since the Unix epoch, together with the offset (in seconds east of UTC)
it is displayed in. -/
structure DateTimeFO where
  epochSecond : Int
  offset : Int
deriving DecidableEq

/-- chrono's final field validation and datetime construction
(`Parsed::to_datetime`): the date must be a real proleptic-Gregorian
date whose weekday matches the parsed weekday name, time components are
range-checked (second 60 is a leap second, mapped onto second 59), and
the offset must be strictly within ±86400 seconds. -/
def toDateTime (w mon day hour minute second : Nat) (offset year : Int) :
    Option DateTimeFO :=
  if day < 1 || daysInMonth year mon < day then none
  else if 23 < hour || 59 < minute || 60 < second then none
  else if weekdayOf year mon day ≠ w then none
  else if offset ≤ -86400 || 86400 ≤ offset then none
  else
    some ⟨daysFromCivil year mon day * 86400 +
            (hour * 3600 + minute * 60 + min second 59 : Nat) - offset,
          offset⟩

/-- chrono `DateTime::parse_from_str` with the fixed format
`"%a %b %d %T %z %Y"` (where `%T` is `%H:%M:%S`): scan the items in
order, require the input to be fully consumed, then validate. -/
def parse_from_str (str : String) : Option DateTimeFO := do
  let s := str.data
  let (w, s) ← scanShortWeekday s
  let s := trimLeft s
  let (mon, s) ← scanShortMonth s
  let s := trimLeft s
  let (day, s) ← scanNumber 2 s
  let s := trimLeft s
  let (hour, s) ← scanNumber 2 s
  let s ← expectChar ':' s
  let s := trimLeft s
  let (minute, s) ← scanNumber 2 s
  let s ← expectChar ':' s
  let s := trimLeft s
  let (second, s) ← scanNumber 2 s
  let s := trimLeft s
  let (offset, s) ← scanOffset s
  let s := trimLeft s
  let (year, s) ← scanYear s
  if s.isEmpty then toDateTime w mon day hour minute second offset year
  else none

example : parse_from_str "Wed Jan 2 15:04:05 +0000 2013" = some ⟨1357139045, 0⟩ := by decide
example : parse_from_str "2013-01-02T15:04:05Z" = none := by decide
example : (parse_from_str "Wed Jan 2 15:04:05 +0000 13").isSome = true := by decide
example : parse_from_str "Tue Jan 2 15:04:05 +0000 2013" = none := by decide
example : parse_from_str "Wed Jan 2 15:04:05 UTC 2013" = none := by decide
example : parse_from_str "Wed Jan 2 15:04:05 +0000 2013 extra" = none := by decide

/-! ## Archive entries, records, and the per-entry pipeline -/

/-- A structured mail message as the external `mailparse` library
delivers it: a list of headers, each a (name, value) pair. -/
structure ParsedMail where
  headers : List (String × String)
deriving DecidableEq

/-- An archive entry (an `mbox_reader::Entry`): the envelope address and
envelope date from its separator line, and the optional attached full
message.  The attached message is external data whose parse outcome is
part of the model: `none` means no message is attached, `some none`
means a message is attached but `parse_mail` fails on it, and
`some (some pm)` means the attached message parses to `pm`. -/
structure Entry where
  envelopeAddress : String
  envelopeDate : String
  message : Option (Option ParsedMail)
deriving DecidableEq

/-- ASCII lowercase of one character. -/
def asciiLower (c : Char) : Char :=
  if 'A' ≤ c && c ≤ 'Z' then Char.ofNat (c.toNat + 32) else c

/-- Case-insensitive header-name comparison, as `mailparse` uses for
header lookup. -/
def headerNameEq (a b : String) : Bool :=
  a.data.map asciiLower == b.data.map asciiLower

/-- `mailparse`'s `get_headers().get_first_value(name)`: the value of
the first header whose name matches case-insensitively. -/
def get_first_value (pm : ParsedMail) (name : String) : Option String :=
  (pm.headers.find? (fun h => headerNameEq h.1 name)).map (fun h => h.2)

/-- The closed set of per-record failure kinds that can arise in the
processing loop (the program erases them all into `Box<dyn Error>`;
the tally treats them identically). -/
inductive PipelineError where
  | idOverflow
  | addressParse
  | timestampParse
  | insertFailure
deriving DecidableEq

/-- `parse_address` from `main.rs`: with no attached message, the
envelope address; with an attached message, fail if it does not parse,
otherwise the first `From` header's value, falling back to the envelope
address when no `From` header exists. -/
def parse_address (e : Entry) : Except PipelineError String :=
  match e.message with
  | none => .ok e.envelopeAddress
  | some none => .error .addressParse
  | some (some pm) =>
    match get_first_value pm "From" with
    | some address => .ok address
    | none => .ok e.envelopeAddress

/-- `parse_message_timestamp` from `main.rs`: parse the envelope date
against the single fixed format `%a %b %d %T %z %Y`. -/
def parse_message_timestamp (e : Entry) : Except PipelineError DateTimeFO :=
  match parse_from_str e.envelopeDate with
  | some dt => .ok dt
  | none => .error .timestampParse

/-- Largest value representable by the record id type `i32`. -/
def I32_MAX : Nat := 2147483647

/-- `i32::try_from` on the `usize` enumeration index: succeeds exactly
when the index fits an `i32`. -/
def i32_try_from (n : Nat) : Except PipelineError Int :=
  if n ≤ I32_MAX then .ok (n : Int) else .error .idOverflow

/-- The record type `EmailEntry` from `main.rs`. -/
structure EmailEntry where
  id : Int
  address : String
  domain : String
  message_timestamp : DateTimeFO
deriving DecidableEq

/-- The first `map` closure of the processing loop: convert the ordinal
to `i32`, extract the address (each `?` propagating its failure),
extract the domain (total), parse the timestamp, and build the record. -/
def build_record (i : Nat) (e : Entry) : Except PipelineError EmailEntry :=
  match i32_try_from i with
  | .error err => .error err
  | .ok id =>
    match parse_address e with
    | .error err => .error err
    | .ok address =>
      let domain := extract_domain address
      match parse_message_timestamp e with
      | .error err => .error err
      | .ok message_timestamp => .ok ⟨id, address, domain, message_timestamp⟩

/-! ## The database, the driving loop and the terminal outcome -/

/-- The externally stored state this program manipulates: the `emails`
table, absent (`none`) or holding its rows in insertion order. -/
structure DBState where
  emails : Option (List EmailEntry)
deriving DecidableEq

/-- `DROP TABLE IF EXISTS emails`: unconditionally removes the table. -/
def drop_table_if_exists (_db : DBState) : DBState := ⟨none⟩

/-- `CREATE TABLE emails (...)`: the table exists and is empty (the
program only runs it right after the drop, where it cannot fail). -/
def create_table (_db : DBState) : DBState := ⟨some []⟩

/-- The `batch_execute` performed before the loop on every run:
drop-if-exists, then create. -/
def setup_schema (db : DBState) : DBState :=
  create_table (drop_table_if_exists db)

/-- One successful execution of the prepared parameterized insert. -/
def insert_email (db : DBState) (r : EmailEntry) : DBState :=
  ⟨db.emails.map (fun rows => rows ++ [r])⟩

/-- Mutable state of a run: the database plus the two tallies. -/
structure RunState where
  db : DBState
  success : Nat
  failure : Nat
deriving DecidableEq

/-- One loop iteration for the entry at ordinal `i`: build the record;
on success attempt the insert (whose external success is decided by the
oracle `ins`); tally exactly one success or one failure. -/
def process_entry (ins : Nat → EmailEntry → Bool) (s : RunState)
    (i : Nat) (e : Entry) : RunState :=
  match build_record i e with
  | .ok r =>
    if ins i r then ⟨insert_email s.db r, s.success + 1, s.failure⟩
    else ⟨s.db, s.success, s.failure + 1⟩
  | .error _ => ⟨s.db, s.success, s.failure + 1⟩

/-- The `for_each` over the enumerated entry stream, starting at
ordinal `i`. -/
def run_loop (ins : Nat → EmailEntry → Bool) :
    Nat → List Entry → RunState → RunState
  | _, [], s => s
  | i, e :: es, s => run_loop ins (i + 1) es (process_entry ins s i e)

/-- A whole run over the archive `es` against initial database `db0`:
recreate the table, zero both tallies, process every entry in order. -/
def inbox_run (ins : Nat → EmailEntry → Bool) (db0 : DBState)
    (es : List Entry) : RunState :=
  run_loop ins 0 es ⟨setup_schema db0, 0, 0⟩

/-- The error `main` returns when any entry failed. -/
structure InboxParserError where
  failed_email_count : Nat
deriving DecidableEq

/-- `main`'s terminal outcome: `Ok(())` when the failure tally is zero,
otherwise the summary error carrying the failure tally. -/
def main_outcome (ins : Nat → EmailEntry → Bool) (db0 : DBState)
    (es : List Entry) : Except InboxParserError Unit :=
  match (inbox_run ins db0 es).failure with
  | 0 => .ok ()
  | n => .error ⟨n⟩

/-- The rows the loop appends to the table when processing `es` from
ordinal `i`: the successfully built and successfully inserted records,
in order. -/
def newRows (ins : Nat → EmailEntry → Bool) : Nat → List Entry → List EmailEntry
  | _, [] => []
  | i, e :: es =>
    (match build_record i e with
     | .ok r => if ins i r then [r] else []
     | .error _ => []) ++ newRows ins (i + 1) es

/-- `Bool`-valued success of one pipeline stage. -/
def stage_ok {α : Type} : Except PipelineError α → Bool
  | .ok _ => true
  | .error _ => false

/-! ## Tally lemmas -/

theorem process_entry_cases (ins : Nat → EmailEntry → Bool) (s : RunState)
    (i : Nat) (e : Entry) :
    ((process_entry ins s i e).success = s.success + 1 ∧
      (process_entry ins s i e).failure = s.failure)
    ∨ ((process_entry ins s i e).success = s.success ∧
      (process_entry ins s i e).failure = s.failure + 1) := by
  unfold process_entry
  cases build_record i e with
  | ok r =>
    by_cases h : ins i r
    · left; simp [h]
    · right; simp [h]
  | error err => right; simp

theorem run_loop_counts (ins : Nat → EmailEntry → Bool) (es : List Entry) :
    ∀ (i : Nat) (s : RunState),
      (run_loop ins i es s).success + (run_loop ins i es s).failure =
        s.success + s.failure + es.length := by
  induction es with
  | nil => intro i s; simp [run_loop]
  | cons e es ih =>
    intro i s
    have hstep : run_loop ins i (e :: es) s =
        run_loop ins (i + 1) es (process_entry ins s i e) := rfl
    rw [hstep, ih (i + 1) (process_entry ins s i e)]
    rcases process_entry_cases ins s i e with ⟨ha, hb⟩ | ⟨ha, hb⟩ <;>
      rw [ha, hb] <;> simp [List.length_cons] <;> omega

/-- Claim C1: over any finite entry sequence, the final success tally
plus the final failure tally equals the number of entries; each entry
increments exactly one of the two tallies by exactly one, whichever
stage failed. -/
theorem run_counts_partition (ins : Nat → EmailEntry → Bool)
    (db0 : DBState) (es : List Entry) :
    (inbox_run ins db0 es).success + (inbox_run ins db0 es).failure = es.length
    ∧ ∀ (s : RunState) (i : Nat) (e : Entry),
        ((process_entry ins s i e).success = s.success + 1 ∧
          (process_entry ins s i e).failure = s.failure)
        ∨ ((process_entry ins s i e).success = s.success ∧
          (process_entry ins s i e).failure = s.failure + 1) := by
  constructor
  · simpa [inbox_run] using run_loop_counts ins es 0 ⟨setup_schema db0, 0, 0⟩
  · intro s i e
    exact process_entry_cases ins s i e

/-- Claim C6: the run ends in success exactly when the failure tally is
zero, and otherwise ends with the single summary error carrying that
tally; an empty archive yields zero successes, zero failures and
success. -/
theorem terminal_outcome (ins : Nat → EmailEntry → Bool) (db0 : DBState)
    (es : List Entry) :
    main_outcome ins db0 es =
      (if (inbox_run ins db0 es).failure = 0 then Except.ok ()
       else Except.error ⟨(inbox_run ins db0 es).failure⟩)
    ∧ (main_outcome ins db0 es = .ok () ↔ (inbox_run ins db0 es).failure = 0)
    ∧ inbox_run ins db0 [] = ⟨⟨some []⟩, 0, 0⟩
    ∧ main_outcome ins db0 [] = .ok () := by
  refine ⟨?_, ?_, rfl, rfl⟩
  · unfold main_outcome
    cases h : (inbox_run ins db0 es).failure <;> simp [h]
  · unfold main_outcome
    cases h : (inbox_run ins db0 es).failure <;> simp [h]

/-! ## Stage error classification -/

theorem i32_try_from_error {n : Nat} {err : PipelineError}
    (h : i32_try_from n = .error err) : err = .idOverflow := by
  unfold i32_try_from at h
  split at h
  · cases h
  · simpa using h.symm

theorem parse_address_error {e : Entry} {err : PipelineError}
    (h : parse_address e = .error err) : err = .addressParse := by
  unfold parse_address at h
  split at h
  · cases h
  · exact (Except.error.inj h).symm
  · split at h <;> cases h

theorem parse_message_timestamp_error {e : Entry} {err : PipelineError}
    (h : parse_message_timestamp e = .error err) : err = .timestampParse := by
  unfold parse_message_timestamp at h
  rcases hf : parse_from_str e.envelopeDate with _ | dt <;> rw [hf] at h
  · simpa using h.symm
  · cases h

theorem build_record_error {i : Nat} {e : Entry} {err : PipelineError}
    (h : build_record i e = .error err) :
    err = .idOverflow ∨ err = .addressParse ∨ err = .timestampParse := by
  unfold build_record at h
  cases h1 : i32_try_from i with
  | error e1 =>
    rw [h1] at h
    cases h
    exact Or.inl (i32_try_from_error h1)
  | ok id =>
    rw [h1] at h
    cases h2 : parse_address e with
    | error e2 =>
      rw [h2] at h
      cases h
      exact Or.inr (Or.inl (parse_address_error h2))
    | ok address =>
      rw [h2] at h
      cases h3 : parse_message_timestamp e with
      | error e3 =>
        rw [h3] at h
        cases h
        exact Or.inr (Or.inr (parse_message_timestamp_error h3))
      | ok ts =>
        rw [h3] at h
        cases h

/-- Shared case analysis of `parse_address` and of the failure tally of
an entry whose attached message does not parse. -/
theorem parse_address_spec (e : Entry) :
    (e.message = none → parse_address e = .ok e.envelopeAddress)
    ∧ (e.message = some none → parse_address e = .error .addressParse
        ∧ ∀ (ins : Nat → EmailEntry → Bool) (s : RunState) (i : Nat),
            process_entry ins s i e = ⟨s.db, s.success, s.failure + 1⟩)
    ∧ (∀ pm v, e.message = some (some pm) →
        get_first_value pm "From" = some v → parse_address e = .ok v)
    ∧ (∀ pm, e.message = some (some pm) →
        get_first_value pm "From" = none →
        parse_address e = .ok e.envelopeAddress) := by
  refine ⟨?_, ?_, ?_, ?_⟩
  · intro h
    simp [parse_address, h]
  · intro h
    have hpa : parse_address e = .error .addressParse := by
      simp [parse_address, h]
    refine ⟨hpa, ?_⟩
    intro ins s i
    unfold process_entry
    cases hb : build_record i e with
    | ok r =>
      exfalso
      unfold build_record at hb
      cases h1 : i32_try_from i with
      | error e1 => rw [h1] at hb; cases hb
      | ok id => rw [h1, hpa] at hb; cases hb
    | error err => simp
  · intro pm v h hv
    simp [parse_address, h, hv]
  · intro pm h hv
    simp [parse_address, h, hv]

/-- Claim C2: address extraction: no attached message gives the
envelope address and never fails; an attached message that does not
parse is a hard failure (and the whole entry is tallied as failed, even
when the envelope address is valid); a parsed message with a `From`
header gives that header's first value; a parsed message without a
`From` header gives the envelope address, which is not an error. -/
theorem address_extraction_cases (e : Entry) :
    (e.message = none → parse_address e = .ok e.envelopeAddress)
    ∧ (e.message = some none → parse_address e = .error .addressParse
        ∧ ∀ (ins : Nat → EmailEntry → Bool) (s : RunState) (i : Nat),
            process_entry ins s i e = ⟨s.db, s.success, s.failure + 1⟩)
    ∧ (∀ pm v, e.message = some (some pm) →
        get_first_value pm "From" = some v → parse_address e = .ok v)
    ∧ (∀ pm, e.message = some (some pm) →
        get_first_value pm "From" = none →
        parse_address e = .ok e.envelopeAddress) :=
  parse_address_spec e

theorem address_extraction_cases_witness :
    parse_address ⟨"env@x.com", "d", none⟩ = .ok "env@x.com"
    ∧ parse_address ⟨"env@x.com", "d", some none⟩ = .error .addressParse
    ∧ process_entry (fun _ _ => true) ⟨⟨some []⟩, 0, 0⟩ 0
        ⟨"env@x.com", "d", some none⟩ = ⟨⟨some []⟩, 0, 1⟩
    ∧ parse_address
        ⟨"env", "d", some (some ⟨[("From", "Alice <alice@example.com>")]⟩)⟩ =
        .ok "Alice <alice@example.com>"
    ∧ parse_address ⟨"env", "d", some (some ⟨[("Subject", "hi")]⟩)⟩ = .ok "env" :=
  ⟨(address_extraction_cases _).1 rfl,
   ((address_extraction_cases _).2.1 rfl).1,
   ((address_extraction_cases _).2.1 rfl).2 (fun _ _ => true) ⟨⟨some []⟩, 0, 0⟩ 0,
   (address_extraction_cases _).2.2.1 _ "Alice <alice@example.com>" rfl (by decide),
   (address_extraction_cases _).2.2.2 _ rfl (by decide)⟩

/-- Claim C3: a record is built (and handed to the loader) exactly when
id conversion, address extraction and timestamp parsing all succeed;
a failing entry's error is one of those three stage errors (domain
extraction is a total function and contributes none); on a failing
entry no insert happens, the failure tally is incremented, and the loop
continues with the next entry. -/
theorem record_built_iff_stages (ins : Nat → EmailEntry → Bool)
    (s : RunState) (i : Nat) (e : Entry) :
    stage_ok (build_record i e) =
      (stage_ok (i32_try_from i) && stage_ok (parse_address e) &&
        stage_ok (parse_message_timestamp e))
    ∧ (∀ err, build_record i e = .error err →
        (err = .idOverflow ∨ err = .addressParse ∨ err = .timestampParse)
        ∧ process_entry ins s i e = ⟨s.db, s.success, s.failure + 1⟩)
    ∧ (∀ es, run_loop ins i (e :: es) s =
        run_loop ins (i + 1) es (process_entry ins s i e)) := by
  refine ⟨?_, ?_, fun es => rfl⟩
  · cases h1 : i32_try_from i <;> cases h2 : parse_address e <;>
      cases h3 : parse_message_timestamp e <;>
      simp [build_record, stage_ok, h1, h2, h3]
  · intro err herr
    exact ⟨build_record_error herr, by simp [process_entry, herr]⟩

theorem record_built_iff_stages_witness :
    stage_ok (build_record 0 ⟨"a@b.c", "nope", none⟩) =
      (stage_ok (i32_try_from 0) &&
        stage_ok (parse_address ⟨"a@b.c", "nope", none⟩) &&
        stage_ok (parse_message_timestamp ⟨"a@b.c", "nope", none⟩))
    ∧ ((PipelineError.timestampParse = .idOverflow ∨
        PipelineError.timestampParse = .addressParse ∨
        PipelineError.timestampParse = .timestampParse)
      ∧ process_entry (fun _ _ => true) ⟨⟨some []⟩, 0, 0⟩ 0
          ⟨"a@b.c", "nope", none⟩ = ⟨⟨some []⟩, 0, 1⟩) :=
  ⟨(record_built_iff_stages (fun _ _ => true) ⟨⟨some []⟩, 0, 0⟩ 0
      ⟨"a@b.c", "nope", none⟩).1,
   (record_built_iff_stages (fun _ _ => true) ⟨⟨some []⟩, 0, 0⟩ 0
      ⟨"a@b.c", "nope", none⟩).2.1 .timestampParse (by rfl)⟩

/-! ## Timestamp layout (claim C4) -/

/-- Counterexample to claim C4 as stated: chrono's `%Y` accepts one to
four year digits, so the two-digit-year date string
`"Wed Jan 2 15:04:05 +0000 13"` is not a hard failure: it parses (to
the literal year 13, whose January 2nd is also a Wednesday), the entry
is tallied as a success, and its record is inserted. -/
theorem two_digit_year_accepted :
    parse_from_str "Wed Jan 2 15:04:05 +0000 13" ≠ none
    ∧ stage_ok (build_record 0
        ⟨"a@b.c", "Wed Jan 2 15:04:05 +0000 13", none⟩) = true
    ∧ (process_entry (fun _ _ => true) ⟨⟨some []⟩, 0, 0⟩ 0
        ⟨"a@b.c", "Wed Jan 2 15:04:05 +0000 13", none⟩).success = 1
    ∧ (process_entry (fun _ _ => true) ⟨⟨some []⟩, 0, 0⟩ 0
        ⟨"a@b.c", "Wed Jan 2 15:04:05 +0000 13", none⟩).failure = 0
    ∧ (process_entry (fun _ _ => true) ⟨⟨some []⟩, 0, 0⟩ 0
        ⟨"a@b.c", "Wed Jan 2 15:04:05 +0000 13", none⟩).db.emails.map
        List.length = some 1 :=
  ⟨by decide, rfl, rfl, rfl, rfl⟩

/-- Claim C4 (amended): timestamp parsing accepts exactly the fixed
layout "short weekday, short month, day-of-month, 24-hour `H:M:S`,
numeric UTC offset, year" and no alternate formats; the envelope date
`"Wed Jan 2 15:04:05 +0000 2013"` parses to the instant 1357139045 with
offset +00:00, while `"2013-01-02T15:04:05Z"`, a non-numeric offset, a
trailing extra field, or a missing seconds field all fail hard, the
entry being tallied as failed and never inserted.  The year field,
however, accepts one to four digits (or a sign followed by digits), so
a two-digit year parses as that literal year instead of failing. -/
theorem timestamp_fixed_layout (ins : Nat → EmailEntry → Bool)
    (s : RunState) (i : Nat) (e : Entry) :
    parse_from_str "Wed Jan 2 15:04:05 +0000 2013" = some ⟨1357139045, 0⟩
    ∧ parse_from_str "2013-01-02T15:04:05Z" = none
    ∧ parse_from_str "Wed Jan 2 15:04:05 UTC 2013" = none
    ∧ parse_from_str "Wed Jan 2 15:04:05 +0000 2013 x" = none
    ∧ parse_from_str "Wed Jan 2 15:04 +0000 2013" = none
    ∧ (parse_from_str "Wed Jan 2 15:04:05 +0000 13").isSome = true
    ∧ parse_message_timestamp e =
        (match parse_from_str e.envelopeDate with
         | some dt => Except.ok dt
         | none => Except.error .timestampParse)
    ∧ (parse_from_str e.envelopeDate = none →
        stage_ok (build_record i e) = false
        ∧ process_entry ins s i e = ⟨s.db, s.success, s.failure + 1⟩) := by
  refine ⟨by decide, by decide, by decide, by decide, by decide, by decide,
    rfl, ?_⟩
  intro h
  have ht : parse_message_timestamp e = .error .timestampParse := by
    simp [parse_message_timestamp, h]
  have hb : stage_ok (build_record i e) = false := by
    cases h1 : i32_try_from i <;> cases h2 : parse_address e <;>
      simp [build_record, stage_ok, h1, h2, ht]
  refine ⟨hb, ?_⟩
  cases hbr : build_record i e with
  | ok r => rw [hbr] at hb; simp [stage_ok] at hb
  | error err => simp [process_entry, hbr]

theorem timestamp_fixed_layout_witness :
    stage_ok (build_record 0 ⟨"a@b", "2013-01-02T15:04:05Z", none⟩) = false
    ∧ process_entry (fun _ _ => true) ⟨⟨some []⟩, 0, 0⟩ 0
        ⟨"a@b", "2013-01-02T15:04:05Z", none⟩ = ⟨⟨some []⟩, 0, 1⟩ :=
  (timestamp_fixed_layout (fun _ _ => true) ⟨⟨some []⟩, 0, 0⟩ 0
    ⟨"a@b", "2013-01-02T15:04:05Z", none⟩).2.2.2.2.2.2.2 (by rfl)

/-! ## Record address contents (claim C7) -/

/-- Counterexample to claim C7 as stated: an entry with an empty
envelope address, no attached message and a well-formed envelope date
yields a successfully constructed record whose address is the empty
string. -/
theorem constructed_record_empty_address :
    build_record 0 ⟨"", "Wed Jan 2 15:04:05 +0000 2013", none⟩ =
      .ok ⟨0, "", "", ⟨1357139045, 0⟩⟩ := by
  rfl

/-- Claim C7 (amended): the address of every constructed record is the
entry's envelope address or an attached `From` header value; it is
non-empty provided the envelope address is non-empty and any `From`
header value delivered for the entry is non-empty (the code itself
never checks emptiness). -/
theorem record_address_nonempty (i : Nat) (e : Entry) (r : EmailEntry)
    (hb : build_record i e = .ok r)
    (henv : e.envelopeAddress ≠ "")
    (hfrom : ∀ pm v, e.message = some (some pm) →
        get_first_value pm "From" = some v → v ≠ "") :
    r.address ≠ "" := by
  unfold build_record at hb
  cases h1 : i32_try_from i <;> rw [h1] at hb
  · cases hb
  cases h2 : parse_address e <;> rw [h2] at hb
  · cases hb
  cases h3 : parse_message_timestamp e <;> rw [h3] at hb
  · cases hb
  next a _ =>
  have hra : r.address = a := by
    cases hb
    rfl
  rw [hra]
  rcases hm : e.message with _ | (_ | pm)
  · have := (parse_address_spec e).1 hm
    rw [this] at h2
    rw [← Except.ok.inj h2]
    exact henv
  · have := ((parse_address_spec e).2.1 hm).1
    rw [this] at h2
    cases h2
  · rcases hf : get_first_value pm "From" with _ | v
    · have := (parse_address_spec e).2.2.2 pm hm hf
      rw [this] at h2
      rw [← Except.ok.inj h2]
      exact henv
    · have := (parse_address_spec e).2.2.1 pm v hm hf
      rw [this] at h2
      rw [← Except.ok.inj h2]
      exact hfrom pm v hm hf

theorem record_address_nonempty_witness :
    (⟨0, "env@x.com", "x.com", ⟨1357139045, 0⟩⟩ : EmailEntry).address ≠ "" :=
  record_address_nonempty 0
    ⟨"env@x.com", "Wed Jan 2 15:04:05 +0000 2013", none⟩ _
    (by rfl) (by decide) (fun _ _ hpm _ => nomatch hpm)

/-! ## Table contents (claims C8, C9) -/

theorem build_record_id {i : Nat} {e : Entry} {r : EmailEntry}
    (h : build_record i e = .ok r) : r.id = (i : Int) ∧ i ≤ I32_MAX := by
  unfold build_record at h
  cases h1 : i32_try_from i <;> rw [h1] at h
  · cases h
  cases h2 : parse_address e <;> rw [h2] at h
  · cases h
  cases h3 : parse_message_timestamp e <;> rw [h3] at h
  · cases h
  next id _ _ =>
  have hid : id = (i : Int) ∧ i ≤ I32_MAX := by
    unfold i32_try_from at h1
    split at h1
    · exact ⟨(Except.ok.inj h1).symm, by assumption⟩
    · cases h1
  cases h
  exact hid

theorem run_loop_db (ins : Nat → EmailEntry → Bool) (es : List Entry) :
    ∀ (i : Nat) (s : RunState),
      (run_loop ins i es s).db.emails =
        s.db.emails.map (fun rows => rows ++ newRows ins i es) := by
  induction es with
  | nil =>
    intro i s
    cases h : s.db.emails <;> simp [run_loop, newRows, h]
  | cons e es ih =>
    intro i s
    have hstep : run_loop ins i (e :: es) s =
        run_loop ins (i + 1) es (process_entry ins s i e) := rfl
    rw [hstep, ih (i + 1) (process_entry ins s i e)]
    cases hb : build_record i e with
    | ok r =>
      by_cases hi : ins i r
      · cases h : s.db.emails <;>
          simp [process_entry, newRows, hb, hi, insert_email, h]
      · cases h : s.db.emails <;>
          simp [process_entry, newRows, hb, hi, h]
    | error err =>
      cases h : s.db.emails <;> simp [process_entry, newRows, hb, h]

theorem newRows_mem (ins : Nat → EmailEntry → Bool) (es : List Entry) :
    ∀ (i : Nat) (r : EmailEntry), r ∈ newRows ins i es →
      ∃ j e', es[j]? = some e' ∧ build_record (i + j) e' = .ok r := by
  induction es with
  | nil =>
    intro i r h
    simp [newRows] at h
  | cons e es ih =>
    intro i r h
    unfold newRows at h
    rw [List.mem_append] at h
    rcases h with h | h
    · cases hb : build_record i e with
      | ok r' =>
        rw [hb] at h
        by_cases hi : ins i r'
        · simp [hi] at h
          subst h
          exact ⟨0, e, by simp, hb⟩
        · simp [hi] at h
      | error err =>
        rw [hb] at h
        simp at h
    · rcases ih (i + 1) r h with ⟨j, e', hj, hbr⟩
      refine ⟨j + 1, e', by simpa using hj, ?_⟩
      have harith : i + 1 + j = i + (j + 1) := by omega
      rw [← harith]
      exact hbr

/-- Claim C8: a built record's id is exactly its entry's zero-based
ordinal; an ordinal exceeding the `i32` range is handled as a tallied
per-record failure, not a panic; consequently every row of the final
table is the successfully built record of the entry at its own id. -/
theorem record_id_is_ordinal (ins : Nat → EmailEntry → Bool)
    (s : RunState) (db0 : DBState) (i : Nat) (e : Entry)
    (es : List Entry) :
    (∀ r, build_record i e = .ok r → r.id = (i : Int))
    ∧ (I32_MAX < i → build_record i e = .error .idOverflow
        ∧ process_entry ins s i e = ⟨s.db, s.success, s.failure + 1⟩)
    ∧ (∀ rows r, (inbox_run ins db0 es).db.emails = some rows → r ∈ rows →
        ∃ j e', es[j]? = some e' ∧ build_record j e' = .ok r ∧
          r.id = (j : Int)) := by
  refine ⟨fun r h => (build_record_id h).1, ?_, ?_⟩
  · intro hi
    have h1 : i32_try_from i = .error .idOverflow := by
      unfold i32_try_from
      rw [if_neg (by omega)]
    have hb : build_record i e = .error .idOverflow := by
      unfold build_record
      rw [h1]
    exact ⟨hb, by simp [process_entry, hb]⟩
  · intro rows r hrows hr
    have hall : (inbox_run ins db0 es).db.emails =
        some (newRows ins 0 es) := by
      simpa [inbox_run, setup_schema, create_table, drop_table_if_exists]
        using run_loop_db ins es 0 ⟨setup_schema db0, 0, 0⟩
    rw [hall] at hrows
    have hrows' := Option.some.inj hrows
    rcases newRows_mem ins es 0 r (by rw [hrows']; exact hr) with
      ⟨j, e', hj, hbr⟩
    rw [Nat.zero_add] at hbr
    exact ⟨j, e', hj, hbr, (build_record_id hbr).1⟩

theorem record_id_is_ordinal_witness :
    (⟨0, "a@b.c", "b.c", ⟨1357139045, 0⟩⟩ : EmailEntry).id = ((0 : Nat) : Int)
    ∧ build_record 2147483648 ⟨"a@b.c", "x", none⟩ = .error .idOverflow
    ∧ process_entry (fun _ _ => true) ⟨⟨some []⟩, 0, 0⟩ 2147483648
        ⟨"a@b.c", "x", none⟩ = ⟨⟨some []⟩, 0, 1⟩
    ∧ (∃ j e', ([⟨"a@b.c", "Wed Jan 2 15:04:05 +0000 2013", none⟩] :
          List Entry)[j]? = some e'
        ∧ build_record j e' =
            .ok ⟨0, "a@b.c", "b.c", ⟨1357139045, 0⟩⟩
        ∧ (⟨0, "a@b.c", "b.c", ⟨1357139045, 0⟩⟩ : EmailEntry).id =
            (j : Int)) :=
  ⟨(record_id_is_ordinal (fun _ _ => true) ⟨⟨some []⟩, 0, 0⟩ ⟨some []⟩ 0
      ⟨"a@b.c", "Wed Jan 2 15:04:05 +0000 2013", none⟩ []).1
      ⟨0, "a@b.c", "b.c", ⟨1357139045, 0⟩⟩ (by rfl),
   ((record_id_is_ordinal (fun _ _ => true) ⟨⟨some []⟩, 0, 0⟩ ⟨some []⟩
      2147483648 ⟨"a@b.c", "x", none⟩ []).2.1 (by decide)).1,
   ((record_id_is_ordinal (fun _ _ => true) ⟨⟨some []⟩, 0, 0⟩ ⟨some []⟩
      2147483648 ⟨"a@b.c", "x", none⟩ []).2.1 (by decide)).2,
   (record_id_is_ordinal (fun _ _ => true) ⟨⟨some []⟩, 0, 0⟩ ⟨some []⟩ 0
      ⟨"", "", none⟩
      [⟨"a@b.c", "Wed Jan 2 15:04:05 +0000 2013", none⟩]).2.2
     [⟨0, "a@b.c", "b.c", ⟨1357139045, 0⟩⟩] _ (by rfl)
     (List.mem_singleton.mpr rfl)⟩

/-- Claim C9: the schema setup run before any entry is processed is a
drop-if-exists followed by a create, leaving an existing empty table
whatever the prior database state; hence, for a fixed archive and
loader behavior, the final table is identical across runs regardless of
the prior state, its rows being exactly the successfully processed
records in order. -/
theorem table_recreated_deterministic (ins : Nat → EmailEntry → Bool)
    (db0 db1 : DBState) (es : List Entry) :
    setup_schema db0 = ⟨some []⟩
    ∧ setup_schema db0 = create_table (drop_table_if_exists db0)
    ∧ (inbox_run ins db0 es).db = (inbox_run ins db1 es).db
    ∧ (inbox_run ins db0 es).db.emails = some (newRows ins 0 es) := by
  have key : ∀ db : DBState,
      (inbox_run ins db es).db.emails = some (newRows ins 0 es) := by
    intro db
    simpa [inbox_run, setup_schema, create_table, drop_table_if_exists]
      using run_loop_db ins es 0 ⟨setup_schema db, 0, 0⟩
  refine ⟨rfl, rfl, ?_, key db0⟩
  calc (inbox_run ins db0 es).db
      = ⟨(inbox_run ins db0 es).db.emails⟩ := rfl
    _ = ⟨some (newRows ins 0 es)⟩ := by rw [key db0]
    _ = ⟨(inbox_run ins db1 es).db.emails⟩ := by rw [key db1]
    _ = (inbox_run ins db1 es).db := rfl

/-! ## Regex semantics (claims C5, C10) -/

theorem takeWhile_all_valid {f : Char → Bool} :
    ∀ (a : List Char) (x : Char) (ys : List Char),
      (∀ c ∈ a, f c = true) → f x = false →
      (a ++ x :: ys).takeWhile f = a ∧ (a ++ x :: ys).dropWhile f = x :: ys := by
  intro a
  induction a with
  | nil =>
    intro x ys _ hx
    constructor
    · rw [List.nil_append]
      exact List.takeWhile_cons_of_neg (by simp [hx])
    · rw [List.nil_append]
      exact List.dropWhile_cons_of_neg (by simp [hx])
  | cons c a ih =>
    intro x ys ha hx
    have hc : f c = true := ha c (by simp)
    have ihr := ih x ys (fun d hd => ha d (by simp [hd])) hx
    constructor
    · simpa [List.takeWhile_cons_of_pos hc] using ihr.1
    · simpa [List.dropWhile_cons_of_pos hc] using ihr.2

theorem matchAtB_lt_length {s : List Char} {p : Nat}
    (h : matchAtB s p = true) : p < s.length := by
  by_contra hle
  push_neg at hle
  have hd : s.drop p = [] := List.drop_eq_nil_iff.mpr hle
  unfold matchAtB at h
  rw [hd] at h
  simp at h

theorem matchAtB_parts {s : List Char} {p : Nat}
    (h : matchAtB s p = true) :
    (s.drop p).takeWhile reClassChar ≠ [] ∧ domainAt s p ≠ [] := by
  unfold matchAtB at h
  cases hd : (s.drop p).dropWhile reClassChar with
  | nil => rw [hd] at h; simp at h
  | cons c b =>
    rw [hd] at h
    simp only [Bool.and_eq_true, beq_iff_eq, Bool.not_eq_eq_eq_not,
      Bool.not_true, List.isEmpty_eq_false] at h
    refine ⟨h.1.2, ?_⟩
    unfold domainAt
    rw [hd]
    exact h.2

theorem matchAtB_decomp {s : List Char} {p : Nat}
    (h : matchAtB s p = true) :
    s.drop p = (s.drop p).takeWhile reClassChar ++ '@' ::
      (domainAt s p ++
        ((s.drop p).dropWhile reClassChar).tail.dropWhile reClassChar) := by
  unfold matchAtB at h
  cases hd : (s.drop p).dropWhile reClassChar with
  | nil => rw [hd] at h; simp at h
  | cons c b =>
    rw [hd] at h
    simp only [Bool.and_eq_true, beq_iff_eq] at h
    obtain ⟨⟨hc, _⟩, _⟩ := h
    subst hc
    simp only [List.tail_cons]
    have h1 : domainAt s p = b.takeWhile reClassChar := by
      unfold domainAt
      rw [hd]
      rfl
    rw [h1, List.takeWhile_append_dropWhile, ← hd,
      List.takeWhile_append_dropWhile]

theorem domainAt_valid {s : List Char} {p : Nat} {c : Char}
    (hc : c ∈ domainAt s p) : reClassChar c = true := by
  unfold domainAt at hc
  exact List.mem_takeWhile_imp hc

theorem matchAtB_true_iff {s : List Char} {p : Nat} :
    matchAtB s p = true ↔
      ∃ a b r, s.drop p = a ++ '@' :: (b ++ r) ∧ a ≠ [] ∧ b ≠ []
        ∧ (∀ c ∈ a, reClassChar c = true)
        ∧ (∀ c ∈ b, reClassChar c = true) := by
  constructor
  · intro h
    refine ⟨(s.drop p).takeWhile reClassChar, domainAt s p,
      ((s.drop p).dropWhile reClassChar).tail.dropWhile reClassChar,
      matchAtB_decomp h, (matchAtB_parts h).1, (matchAtB_parts h).2,
      fun c hc => List.mem_takeWhile_imp hc,
      fun c hc => domainAt_valid hc⟩
  · rintro ⟨a, b, r, hdec, ha, hb, hav, hbv⟩
    have hsplit := takeWhile_all_valid a '@' (b ++ r) hav (by decide)
    unfold matchAtB
    rw [hdec, hsplit.1, hsplit.2]
    cases hbc : b with
    | nil => exact absurd hbc hb
    | cons c b2 =>
      have hc : reClassChar c = true := hbv c (by simp [hbc])
      simp [List.takeWhile_cons_of_pos hc, ha]

theorem scanFirst_some {f : Nat → Bool} :
    ∀ (fuel p q : Nat), scanFirst f p fuel = some q → f q = true := by
  intro fuel
  induction fuel with
  | zero => intro p q h; cases h
  | succ n ih =>
    intro p q h
    unfold scanFirst at h
    by_cases hf : f p = true
    · rw [if_pos hf] at h
      cases h
      exact hf
    · rw [if_neg hf] at h
      exact ih (p + 1) q h

theorem scanFirst_none {f : Nat → Bool} (hall : ∀ q, f q = false) :
    ∀ (fuel p : Nat), scanFirst f p fuel = none := by
  intro fuel
  induction fuel with
  | zero => intro p; rfl
  | succ n ih =>
    intro p
    unfold scanFirst
    rw [if_neg (by simp [hall p])]
    exact ih (p + 1)

theorem scanFirst_found {f : Nat → Bool} {p0 : Nat} (h0 : f p0 = true)
    (hmin : ∀ q, q < p0 → f q = false) :
    ∀ (fuel p : Nat), p ≤ p0 → p0 < p + fuel →
      scanFirst f p fuel = some p0 := by
  intro fuel
  induction fuel with
  | zero => intro p h1 h2; omega
  | succ n ih =>
    intro p h1 h2
    unfold scanFirst
    by_cases hp : p = p0
    · subst hp
      rw [if_pos h0]
    · have hlt : p < p0 := by omega
      rw [if_neg (by simp [hmin p hlt])]
      exact ih (p + 1) (by omega) (by omega)

/-- Claim C5: domain extraction is total, and returns the portion after
`@` of the first (leftmost) substring matching "one or more
non-angle-bracket, non-at, non-whitespace characters, `@`, one or more
such characters", or the empty string when no position of the address
matches; `"user@example.com"` yields `"example.com"` and
`"not-an-address"` yields `""` without being a failure. -/
theorem domain_extraction_first_match (address : String) :
    extract_domain "user@example.com" = "example.com"
    ∧ extract_domain "not-an-address" = ""
    ∧ ((∀ p, p < address.data.length → matchAtB address.data p = false) →
        extract_domain address = "")
    ∧ (∀ p, matchAtB address.data p = true →
        (∀ q, q < p → matchAtB address.data q = false) →
        extract_domain address = ⟨domainAt address.data p⟩)
    ∧ (∀ p, matchAtB address.data p = true ↔
        ∃ a b r, address.data.drop p = a ++ '@' :: (b ++ r)
          ∧ a ≠ [] ∧ b ≠ []
          ∧ (∀ c ∈ a, reClassChar c = true)
          ∧ (∀ c ∈ b, reClassChar c = true)) := by
  refine ⟨by decide, by decide, ?_, ?_, fun p => matchAtB_true_iff⟩
  · intro hball
    have hall : ∀ p, matchAtB address.data p = false := by
      intro p
      by_cases hp : p < address.data.length
      · exact hball p hp
      · by_cases hm : matchAtB address.data p = true
        · exact absurd (matchAtB_lt_length hm) hp
        · simpa using hm
    have : re_first_match address.data = none := scanFirst_none hall _ _
    simp [extract_domain, this]
  · intro p hp hmin
    have : re_first_match address.data = some p :=
      scanFirst_found hp hmin (address.data.length + 1) 0 (Nat.zero_le _)
        (by have := matchAtB_lt_length hp; omega)
    simp [extract_domain, this]

theorem domain_extraction_first_match_witness :
    extract_domain "user@example.com" =
      ⟨domainAt "user@example.com".data 0⟩
    ∧ extract_domain "not-an-address" = "" :=
  ⟨(domain_extraction_first_match "user@example.com").2.2.2.1 0
    (by decide) (by decide),
   (domain_extraction_first_match "not-an-address").2.2.1 (by decide)⟩

theorem reClassChar_spec {c : Char} (h : reClassChar c = true) :
    c ≠ '@' ∧ c ≠ '<' ∧ c ≠ '>' ∧ isWhiteSpaceChar c = false := by
  simp [reClassChar] at h
  exact ⟨h.1.2, h.1.1.1, h.1.1.2, h.2⟩

/-- Claim C10: the extracted domain never contains `@`, `<`, `>` or a
whitespace character, and when non-empty it occurs in the address as a
contiguous substring immediately following an `@`. -/
theorem domain_chars_invariant (address : String) :
    (∀ c ∈ (extract_domain address).data,
        c ≠ '@' ∧ c ≠ '<' ∧ c ≠ '>' ∧ isWhiteSpaceChar c = false)
    ∧ (extract_domain address ≠ "" →
        ∃ l r, address.data = l ++ '@' ::
          ((extract_domain address).data ++ r)) := by
  constructor
  · cases hm : re_first_match address.data with
    | none =>
      simp only [extract_domain, hm]
      intro c hc
      exact absurd hc (List.not_mem_nil c)
    | some p =>
      simp only [extract_domain, hm]
      intro c hc
      exact reClassChar_spec (domainAt_valid hc)
  · intro hne
    cases hm : re_first_match address.data with
    | none => exact absurd (by simp [extract_domain, hm]) hne
    | some p =>
      have hmt : matchAtB address.data p = true :=
        scanFirst_some (address.data.length + 1) 0 p hm
      have hdec := matchAtB_decomp hmt
      have hE : (extract_domain address).data = domainAt address.data p := by
        simp [extract_domain, hm]
      refine ⟨address.data.take p ++
          (address.data.drop p).takeWhile reClassChar,
        ((address.data.drop p).dropWhile reClassChar).tail.dropWhile
          reClassChar, ?_⟩
      rw [hE]
      exact ((List.take_append_drop p address.data).symm.trans
          (congrArg (fun x => address.data.take p ++ x) hdec)).trans
        (List.append_assoc _ _ _).symm

theorem domain_chars_invariant_witness :
    ('e' ≠ '@' ∧ 'e' ≠ '<' ∧ 'e' ≠ '>' ∧ isWhiteSpaceChar 'e' = false)
    ∧ ∃ l r, "user@example.com".data = l ++ '@' ::
        ((extract_domain "user@example.com").data ++ r) :=
  ⟨(domain_chars_invariant "user@example.com").1 'e' (by decide),
   (domain_chars_invariant "user@example.com").2 (by decide)⟩
